import Mathlib

/-!
Verification development for the stable-diffusion image-generator app
(`src/app.py`).  The Python source is shallowly embedded: pure helpers
become Lean functions, the pieces of mutable state (Streamlit session
state, the SQLite table, the blob directory) become explicit state values
threaded through the functions, and side effects that matter to the
specification (network posts, sleeps, blob writes) are recorded as
explicit event lists.
-/

/- ------------------------------------------------------------------ -/
/- PromptValidator: `validate_prompt`, src/app.py lines 49-57          -/
/- ------------------------------------------------------------------ -/

/-- Python whitespace characters recognised by `str.strip()` / `str.split()`
(ASCII fragment: space, tab, newline, carriage return, vertical tab,
form feed). -/
def isPySpace (c : Char) : Bool :=
  c == ' ' || c == '\t' || c == '\n' || c == '\r' || c == '\x0b' || c == '\x0c'

/-- Embedding of Python `str.strip()` on a character list: drop leading and
trailing whitespace. -/
def stripList (l : List Char) : List Char :=
  ((l.dropWhile isPySpace).reverse.dropWhile isPySpace).reverse

/-- Embedding of Python `prompt.strip()`. -/
def pyStrip (s : String) : String := String.mk (stripList s.data)

/-- Worker for Python `str.split()` with no separator: split on runs of
whitespace, discarding empty tokens.  `acc` holds the reversed current
token. -/
def splitWsAux : List Char → List Char → List (List Char)
  | [], acc => if acc.isEmpty then [] else [acc.reverse]
  | c :: cs, acc =>
      if isPySpace c then
        if acc.isEmpty then splitWsAux cs []
        else acc.reverse :: splitWsAux cs []
      else splitWsAux cs (c :: acc)

/-- Embedding of Python `str.split()` (whitespace tokenisation). -/
def wordsOf (l : List Char) : List (List Char) := splitWsAux l []

/-- Embedding of Python `" ".join(tokens)`: concatenate tokens with a single
space between consecutive tokens. -/
def joinWords : List (List Char) → List Char
  | [] => []
  | [t] => t
  | t :: t2 :: ts => t ++ ' ' :: joinWords (t2 :: ts)

/-- Result of `validate_prompt`.  The source signals the two failure cases
with `st.error(...)` followed by `return None`; the two error messages are
distinguished here as constructors. -/
inductive ValidateResult
  | emptyPrompt
  | promptTooLong
  | ok (cleaned : String)
deriving DecidableEq, Repr

/-- Embedding of `validate_prompt` (src/app.py lines 49-57):
empty/blank check first (`not prompt or len(prompt.strip()) == 0`), then
the raw-length bound (`len(prompt) > 500`), then
`" ".join(prompt.strip().split())`. -/
def validate_prompt (prompt : String) : ValidateResult :=
  if prompt.length = 0 ∨ (pyStrip prompt).length = 0 then ValidateResult.emptyPrompt
  else if prompt.length > 500 then ValidateResult.promptTooLong
  else ValidateResult.ok (String.mk (joinWords (wordsOf (stripList prompt.data))))

/- ------------------------------------------------------------------ -/
/- RateLimiter: `check_rate_limit`, src/app.py lines 174-189           -/
/- ------------------------------------------------------------------ -/

/-- The limiter's slice of `st.session_state`.  A session with the keys
absent behaves like the explicit initial state `⟨0, 0⟩` (lines 175-177).
Timestamps (`time.time()` float seconds) are modelled as rationals. -/
structure RLState where
  last_request_time : ℚ
  request_count : ℕ
deriving DecidableEq, Repr

/-- Embedding of `check_rate_limit` (src/app.py lines 174-189): reset the
count when more than 60 seconds passed since `last_request_time`, always
increment the count and set `last_request_time` to the current time, and
allow the call iff the incremented count is at most 5. -/
def check_rate_limit (s : RLState) (now : ℚ) : Bool × RLState :=
  let count0 : ℕ := if now - s.last_request_time > 60 then 0 else s.request_count
  let count1 := count0 + 1
  (decide (count1 ≤ 5), ⟨now, count1⟩)

/-- Modelled from the claim/spec wording for comparison with the source:
a strict fixed-window limiter in which `last_request_time` plays the role of
`windowStart` and is updated only when a reset occurs. -/
def claimFixedWindowStep (s : RLState) (now : ℚ) : Bool × RLState :=
  let ws : ℚ := if now - s.last_request_time > 60 then now else s.last_request_time
  let count0 : ℕ := if now - s.last_request_time > 60 then 0 else s.request_count
  let count1 := count0 + 1
  (decide (count1 ≤ 5), ⟨ws, count1⟩)

/-- Run a limiter step function over a list of call timestamps, collecting
the allow/deny answers. -/
def runLimiter (step : RLState → ℚ → Bool × RLState) (s : RLState) :
    List ℚ → List Bool × RLState
  | [] => ([], s)
  | t :: ts =>
      let r := step s t
      let rest := runLimiter step r.2 ts
      (r.1 :: rest.1, rest.2)

/- ------------------------------------------------------------------ -/
/- C1: the limiter's window semantics                                  -/
/- ------------------------------------------------------------------ -/

/-- C1 (counterexample): the code is not the fixed-window algorithm the
claim describes.  `check_rate_limit` writes `last_request_time := now` on
every call, so on the call trace 100, 130, 160, 190 (gaps of 30s) the
count climbs to 4 whereas the claimed algorithm (window start frozen
until a reset) would have reset at t=190 and show count 1; extending the
trace to six calls, the code denies the sixth call while the claimed
algorithm allows it.  The final two conjuncts show the state's timestamp
being rewritten by a call that performed no reset. -/
theorem check_rate_limit_not_fixed_window :
    (runLimiter check_rate_limit ⟨0, 0⟩ [100, 130, 160, 190]).2.request_count = 4
  ∧ (runLimiter claimFixedWindowStep ⟨0, 0⟩ [100, 130, 160, 190]).2.request_count = 1
  ∧ (runLimiter check_rate_limit ⟨0, 0⟩ [100, 130, 160, 190, 220, 250]).1
      = [true, true, true, true, true, false]
  ∧ (runLimiter claimFixedWindowStep ⟨0, 0⟩ [100, 130, 160, 190, 220, 250]).1
      = [true, true, true, true, true, true]
  ∧ (check_rate_limit ⟨100, 1⟩ 130).2.last_request_time = 130
  ∧ ¬((130 : ℚ) - 100 > 60) := by
  refine ⟨?_, ?_, ?_, ?_, ?_, by norm_num⟩ <;>
    norm_num [runLimiter, check_rate_limit, claimFixedWindowStep]

/-- C1 (amended): `check_rate_limit` updates `last_request_time` on every
call; the count resets exactly when more than 60 seconds have elapsed
since the previous call; the count is then incremented unconditionally
and the call is allowed iff the new count is at most 5.  Consequently
five calls at one instant are all allowed, the sixth within the same 60s
is denied, and a call 61 seconds after the previous one is allowed and
leaves the count at 1. -/
theorem check_rate_limit_amended (s : RLState) (now : ℚ) :
    ((check_rate_limit s now).2.last_request_time = now
  ∧ (now - s.last_request_time > 60 →
       (check_rate_limit s now).2.request_count = 1 ∧ (check_rate_limit s now).1 = true)
  ∧ (¬(now - s.last_request_time > 60) →
       (check_rate_limit s now).2.request_count = s.request_count + 1)
  ∧ ((check_rate_limit s now).1 = true ↔ (check_rate_limit s now).2.request_count ≤ 5))
  ∧ ((runLimiter check_rate_limit ⟨0, 0⟩ [100, 100, 100, 100, 100]).1
       = [true, true, true, true, true]
  ∧ (runLimiter check_rate_limit ⟨0, 0⟩ [100, 100, 100, 100, 100, 100]).1
       = [true, true, true, true, true, false]
  ∧ (runLimiter check_rate_limit ⟨0, 0⟩ [100, 100, 100, 100, 100, 100, 161]).1
       = [true, true, true, true, true, false, true]
  ∧ (runLimiter check_rate_limit ⟨0, 0⟩ [100, 100, 100, 100, 100, 100, 161]).2.request_count
       = 1) := by
  constructor
  · refine ⟨by simp [check_rate_limit], ?_, ?_, ?_⟩
    · intro h
      simp [check_rate_limit, h]
    · intro h
      simp [check_rate_limit, h]
    · simp [check_rate_limit]
  · refine ⟨?_, ?_, ?_, ?_⟩ <;> norm_num [runLimiter, check_rate_limit]

/-- Witness for `check_rate_limit_amended`: a first call at t=100 from the
initial state resets (100 - 0 > 60) and is allowed with count 1. -/
theorem check_rate_limit_amended_witness :
    (check_rate_limit ⟨0, 0⟩ 100).2.request_count = 1
  ∧ (check_rate_limit ⟨0, 0⟩ 100).1 = true :=
  (check_rate_limit_amended ⟨0, 0⟩ 100).1.2.1 (by norm_num)

/- ------------------------------------------------------------------ -/
/- String lemmas for C6/C7                                             -/
/- ------------------------------------------------------------------ -/

/-- A list whose first character (if any) is not whitespace. -/
def headNotWs : List Char → Bool
  | [] => true
  | c :: _ => !(isPySpace c)

/-- No two adjacent whitespace characters. -/
def noDoubleWs : List Char → Bool
  | [] => true
  | [_] => true
  | c1 :: c2 :: rest => (!(isPySpace c1 && isPySpace c2)) && noDoubleWs (c2 :: rest)

theorem splitWsAux_ne_nil (l : List Char) :
    ∀ acc : List Char, acc ≠ [] → splitWsAux l acc ≠ [] := by
  induction l with
  | nil =>
      intro acc h
      cases acc with
      | nil => exact absurd rfl h
      | cons a as => simp [splitWsAux]
  | cons c cs ih =>
      intro acc h
      cases acc with
      | nil => exact absurd rfl h
      | cons a as =>
          by_cases hc : isPySpace c = true
          · simp [splitWsAux, hc]
          · simp only [Bool.not_eq_true] at hc
            simpa [splitWsAux, hc] using ih (c :: a :: as) (by simp)

theorem splitWsAux_eq_nil_iff (l : List Char) :
    ∀ acc : List Char, splitWsAux l acc = [] ↔ (acc = [] ∧ l.all isPySpace = true) := by
  induction l with
  | nil =>
      intro acc
      cases acc with
      | nil => simp [splitWsAux]
      | cons a as => simp [splitWsAux]
  | cons c cs ih =>
      intro acc
      by_cases hc : isPySpace c = true
      · cases acc with
        | nil => simpa [splitWsAux, hc] using ih []
        | cons a as => simp [splitWsAux, hc]
      · simp only [Bool.not_eq_true] at hc
        cases acc with
        | nil => simp [splitWsAux, hc, ih]
        | cons a as => simp [splitWsAux, hc, ih]

theorem splitWsAux_tokens (l : List Char) :
    ∀ acc : List Char, (∀ c ∈ acc, isPySpace c = false) →
      ∀ t ∈ splitWsAux l acc, t ≠ [] ∧ ∀ c ∈ t, isPySpace c = false := by
  induction l with
  | nil =>
      intro acc hacc t ht
      cases acc with
      | nil => simp [splitWsAux] at ht
      | cons a as =>
          simp [splitWsAux] at ht
          subst ht
          refine ⟨by simp, ?_⟩
          intro c hc
          exact hacc c (by simp at hc ⊢; tauto)
  | cons c cs ih =>
      intro acc hacc t ht
      by_cases hc : isPySpace c = true
      · cases acc with
        | nil =>
            simp only [splitWsAux, hc, if_true, List.isEmpty_nil] at ht
            exact ih [] (by simp) t (by simpa using ht)
        | cons a as =>
            simp only [splitWsAux, hc, if_true, List.isEmpty_cons] at ht
            rcases (List.mem_cons.mp (by simpa using ht)) with h1 | h1
            · subst h1
              refine ⟨by simp, ?_⟩
              intro x hx
              exact hacc x (by simp at hx ⊢; tauto)
            · exact ih [] (by simp) t h1
      · simp only [Bool.not_eq_true] at hc
        simp only [splitWsAux, hc] at ht
        refine ih (c :: acc) ?_ t (by simpa [hc] using ht)
        intro x hx
        rcases List.mem_cons.mp hx with h1 | h1
        · subst h1; exact hc
        · exact hacc x h1

theorem splitWsAux_append_nonws :
    ∀ t : List Char, (∀ c ∈ t, isPySpace c = false) →
      ∀ rest acc : List Char, splitWsAux (t ++ rest) acc = splitWsAux rest (t.reverse ++ acc) := by
  intro t
  induction t with
  | nil => intro _ rest acc; simp
  | cons c t' ih =>
      intro ht rest acc
      have hc : isPySpace c = false := ht c (by simp)
      have ht' : ∀ x ∈ t', isPySpace x = false := fun x hx => ht x (by simp [hx])
      simp only [List.cons_append, splitWsAux, hc, Bool.false_eq_true, if_false,
        List.append_eq]
      rw [ih ht' rest (c :: acc)]
      simp

theorem isPySpace_space : isPySpace ' ' = true := rfl

theorem wordsOf_joinWords :
    ∀ ts : List (List Char),
      (∀ t ∈ ts, t ≠ [] ∧ ∀ c ∈ t, isPySpace c = false) →
      wordsOf (joinWords ts) = ts := by
  intro ts
  induction ts with
  | nil => intro _; rfl
  | cons t ts' ih =>
      intro h
      have ht := h t (by simp)
      have hne : t.reverse.isEmpty = false := by
        cases hrev : t.reverse with
        | nil => exact absurd (by simpa using hrev) ht.1
        | cons a as => rfl
      cases ts' with
      | nil =>
          have key := splitWsAux_append_nonws t ht.2 [] []
          simp only [List.append_nil] at key
          unfold wordsOf joinWords
          rw [key]
          simp [splitWsAux, hne]
      | cons t2 ts'' =>
          have ih' := ih (fun x hx => h x (by simp [hx]))
          have key := splitWsAux_append_nonws t ht.2 (' ' :: joinWords (t2 :: ts'')) []
          simp only [List.append_nil] at key
          unfold wordsOf joinWords
          rw [key]
          unfold wordsOf at ih'
          simp [splitWsAux, isPySpace_space, hne, ih']

theorem joinWords_cons_length (x : List Char) (rest : List (List Char)) :
    (joinWords (x :: rest)).length ≤ x.length + 1 + (joinWords rest).length := by
  cases rest with
  | nil => simp [joinWords]
  | cons y ys =>
      simp [joinWords]
      omega

theorem joinWords_splitWsAux_length :
    ∀ (l acc : List Char), (joinWords (splitWsAux l acc)).length ≤ l.length + acc.length := by
  intro l
  induction l with
  | nil =>
      intro acc
      cases acc with
      | nil => simp [splitWsAux, joinWords]
      | cons a as => simp [splitWsAux, joinWords]
  | cons c cs ih =>
      intro acc
      by_cases hc : isPySpace c = true
      · cases acc with
        | nil =>
            have h1 := ih []
            simp only [splitWsAux, hc, if_true, List.isEmpty_nil] at h1 ⊢
            simp only [List.length_nil, Nat.add_zero] at h1
            simp only [List.length_cons]
            omega
        | cons a as =>
            have h1 := joinWords_cons_length ((a :: as).reverse) (splitWsAux cs [])
            have h2 := ih []
            simp only [splitWsAux, hc, if_true, List.isEmpty_cons, Bool.false_eq_true,
              if_false]
            simp only [List.length_nil, Nat.add_zero] at h2
            simp only [List.length_reverse, List.length_cons] at h1 ⊢
            omega
      · simp only [Bool.not_eq_true] at hc
        have h1 := ih (c :: acc)
        simp only [splitWsAux, hc, Bool.false_eq_true, if_false] at h1 ⊢
        simp only [List.length_cons] at h1 ⊢
        omega

theorem length_dropWhile_le (p : Char → Bool) :
    ∀ l : List Char, (l.dropWhile p).length ≤ l.length := by
  intro l
  induction l with
  | nil => simp
  | cons c cs ih =>
      by_cases hc : p c = true
      · simp only [List.dropWhile_cons, hc, if_true, List.length_cons]
        omega
      · simp only [Bool.not_eq_true] at hc
        simp [List.dropWhile_cons, hc]

theorem stripList_length_le (l : List Char) : (stripList l).length ≤ l.length := by
  unfold stripList
  have h1 := length_dropWhile_le isPySpace ((l.dropWhile isPySpace).reverse)
  have h2 := length_dropWhile_le isPySpace l
  simp only [List.length_reverse] at h1 ⊢
  omega

theorem dropWhile_head_or_nil (p : Char → Bool) :
    ∀ l : List Char, l.dropWhile p = [] ∨ ∃ d r, l.dropWhile p = d :: r ∧ p d = false := by
  intro l
  induction l with
  | nil => exact Or.inl rfl
  | cons c cs ih =>
      by_cases hc : p c = true
      · simpa [List.dropWhile_cons, hc] using ih
      · simp only [Bool.not_eq_true] at hc
        exact Or.inr ⟨c, cs, by simp [List.dropWhile_cons, hc], hc⟩

theorem stripList_allWs_eq_nil (l : List Char)
    (h : (stripList l).all isPySpace = true) : stripList l = [] := by
  unfold stripList at h ⊢
  rcases dropWhile_head_or_nil isPySpace ((l.dropWhile isPySpace).reverse) with h0 | ⟨d, r, hdr, hd⟩
  · simp [h0]
  · exfalso
    rw [hdr] at h
    have hmem : isPySpace d = true := by
      have hall := List.all_eq_true.mp h
      exact hall d (by simp)
    rw [hmem] at hd
    exact Bool.noConfusion hd

theorem dropWhile_of_headNotWs (l : List Char) (h : headNotWs l = true) :
    l.dropWhile isPySpace = l := by
  cases l with
  | nil => rfl
  | cons c cs =>
      have : isPySpace c = false := by simpa [headNotWs] using h
      simp [List.dropWhile_cons, this]

theorem stripList_of_clean (l : List Char)
    (h1 : headNotWs l = true) (h2 : headNotWs l.reverse = true) : stripList l = l := by
  unfold stripList
  rw [dropWhile_of_headNotWs l h1, dropWhile_of_headNotWs l.reverse h2,
    List.reverse_reverse]

theorem splitWsAux_allWs :
    ∀ w : List Char, w.all isPySpace = true →
      ∀ acc : List Char, splitWsAux w acc = if acc.isEmpty then [] else [acc.reverse] := by
  intro w
  induction w with
  | nil => intro _ acc; rfl
  | cons c w' ih =>
      intro hw acc
      have hc : isPySpace c = true := by
        have := List.all_eq_true.mp hw
        exact this c (by simp)
      have hw' : w'.all isPySpace = true := by
        rw [List.all_eq_true]
        intro x hx
        exact List.all_eq_true.mp hw x (by simp [hx])
      cases acc with
      | nil => simp [splitWsAux, hc, ih hw']
      | cons a as => simp [splitWsAux, hc, ih hw']

theorem splitWsAux_append_allWs (w : List Char) (hw : w.all isPySpace = true) :
    ∀ l acc : List Char, splitWsAux (l ++ w) acc = splitWsAux l acc := by
  intro l
  induction l with
  | nil =>
      intro acc
      rw [List.nil_append, splitWsAux_allWs w hw acc]
      rfl
  | cons c cs ih =>
      intro acc
      by_cases hc : isPySpace c = true
      · cases acc with
        | nil => simp [splitWsAux, hc, ih]
        | cons a as => simp [splitWsAux, hc, ih]
      · simp only [Bool.not_eq_true] at hc
        simp [splitWsAux, hc, ih]

theorem wordsOf_dropWhile (l : List Char) :
    wordsOf (l.dropWhile isPySpace) = wordsOf l := by
  induction l with
  | nil => rfl
  | cons c cs ih =>
      by_cases hc : isPySpace c = true
      · unfold wordsOf at ih ⊢
        simpa [List.dropWhile_cons, hc, splitWsAux] using ih
      · simp only [Bool.not_eq_true] at hc
        simp [List.dropWhile_cons, hc]

theorem mem_takeWhile_ws (p : Char → Bool) :
    ∀ (l : List Char) (x : Char), x ∈ l.takeWhile p → p x = true := by
  intro l
  induction l with
  | nil => intro x hx; simp [List.takeWhile] at hx
  | cons c cs ih =>
      intro x hx
      by_cases hc : p c = true
      · rw [List.takeWhile_cons, if_pos hc] at hx
        rcases List.mem_cons.mp hx with h1 | h1
        · subst h1; exact hc
        · exact ih x h1
      · rw [List.takeWhile_cons, if_neg hc] at hx
        simp at hx

theorem wordsOf_stripList (l : List Char) : wordsOf (stripList l) = wordsOf l := by
  have hsplit : stripList l ++ ((l.dropWhile isPySpace).reverse.takeWhile isPySpace).reverse
      = l.dropWhile isPySpace := by
    unfold stripList
    rw [← List.reverse_append, List.takeWhile_append_dropWhile, List.reverse_reverse]
  have hws : (((l.dropWhile isPySpace).reverse.takeWhile isPySpace).reverse).all isPySpace
      = true := by
    rw [List.all_eq_true]
    intro x hx
    exact mem_takeWhile_ws isPySpace _ x (List.mem_reverse.mp hx)
  have step1 : wordsOf (stripList l) = wordsOf (l.dropWhile isPySpace) := by
    unfold wordsOf
    rw [← hsplit, splitWsAux_append_allWs _ hws]
  rw [step1, wordsOf_dropWhile]

theorem joinWords_ne_nil (ts : List (List Char)) (hne : ts ≠ [])
    (h : ∀ t ∈ ts, t ≠ [] ∧ ∀ c ∈ t, isPySpace c = false) : joinWords ts ≠ [] := by
  cases ts with
  | nil => exact absurd rfl hne
  | cons t ts' =>
      have ht := (h t (by simp)).1
      cases ts' with
      | nil => simpa [joinWords] using ht
      | cons t2 ts'' =>
          simp only [joinWords]
          intro hcontra
          rcases List.append_eq_nil.mp hcontra with ⟨h1, _⟩
          exact ht h1

theorem joinWords_headNotWs (ts : List (List Char))
    (h : ∀ t ∈ ts, t ≠ [] ∧ ∀ c ∈ t, isPySpace c = false) :
    headNotWs (joinWords ts) = true := by
  cases ts with
  | nil => rfl
  | cons t ts' =>
      have ht := h t (by simp)
      cases hteq : t with
      | nil => exact absurd hteq ht.1
      | cons c t'' =>
          have hc : isPySpace c = false := ht.2 c (by rw [hteq]; simp)
          cases ts' with
          | nil => simp [joinWords, hteq, headNotWs, hc]
          | cons t2 ts'' => simp [joinWords, hteq, headNotWs, hc]

theorem headNotWs_reverse_of_nonws (t : List Char)
    (ht : ∀ c ∈ t, isPySpace c = false) : headNotWs t.reverse = true := by
  cases hrev : t.reverse with
  | nil => rfl
  | cons d r =>
      have hd : d ∈ t := by
        rw [← List.mem_reverse, hrev]
        simp
      simp [headNotWs, ht d hd]

theorem joinWords_revHeadNotWs :
    ∀ ts : List (List Char),
      (∀ t ∈ ts, t ≠ [] ∧ ∀ c ∈ t, isPySpace c = false) →
      headNotWs (joinWords ts).reverse = true := by
  intro ts
  induction ts with
  | nil => intro _; rfl
  | cons t ts' ih =>
      intro h
      have ht := h t (by simp)
      cases ts' with
      | nil => exact headNotWs_reverse_of_nonws t ht.2
      | cons t2 ts'' =>
          have hgood' : ∀ x ∈ t2 :: ts'', x ≠ [] ∧ ∀ c ∈ x, isPySpace c = false :=
            fun x hx => h x (by simp [hx])
          have hJne : joinWords (t2 :: ts'') ≠ [] :=
            joinWords_ne_nil (t2 :: ts'') (by simp) hgood'
          have ihrev := ih hgood'
          cases hrev : (joinWords (t2 :: ts'')).reverse with
          | nil => exact absurd (by simpa using hrev) hJne
          | cons d r =>
              rw [hrev] at ihrev
              simp only [joinWords, List.reverse_append, List.reverse_cons, hrev]
              simpa [headNotWs] using ihrev

theorem noDoubleWs_append_nonws :
    ∀ t : List Char, (∀ c ∈ t, isPySpace c = false) →
      ∀ rest : List Char, noDoubleWs rest = true → noDoubleWs (t ++ rest) = true := by
  intro t
  induction t with
  | nil => intro _ rest hr; simpa using hr
  | cons a t' ih =>
      intro ht rest hr
      have ha : isPySpace a = false := ht a (by simp)
      have ht' : ∀ c ∈ t', isPySpace c = false := fun c hc => ht c (by simp [hc])
      have htail : noDoubleWs (t' ++ rest) = true := ih ht' rest hr
      rw [List.cons_append]
      cases heq : t' ++ rest with
      | nil => rfl
      | cons b bs =>
          rw [heq] at htail
          simp only [noDoubleWs, ha, Bool.false_and, Bool.not_false, Bool.true_and]
          exact htail

theorem noDoubleWs_joinWords :
    ∀ ts : List (List Char),
      (∀ t ∈ ts, t ≠ [] ∧ ∀ c ∈ t, isPySpace c = false) →
      noDoubleWs (joinWords ts) = true := by
  intro ts
  induction ts with
  | nil => intro _; rfl
  | cons t ts' ih =>
      intro h
      have ht := h t (by simp)
      cases ts' with
      | nil =>
          have := noDoubleWs_append_nonws t ht.2 [] (by rfl)
          simpa [joinWords] using this
      | cons t2 ts'' =>
          have hgood' : ∀ x ∈ t2 :: ts'', x ≠ [] ∧ ∀ c ∈ x, isPySpace c = false :=
            fun x hx => h x (by simp [hx])
          have hihead := joinWords_headNotWs (t2 :: ts'') hgood'
          have hJ := ih hgood'
          have hrest : noDoubleWs (' ' :: joinWords (t2 :: ts'')) = true := by
            cases hJeq : joinWords (t2 :: ts'') with
            | nil => rfl
            | cons d r =>
                rw [hJeq] at hihead hJ
                simp only [noDoubleWs, isPySpace_space, Bool.true_and]
                rw [Bool.and_eq_true]
                exact ⟨by simpa [headNotWs] using hihead, hJ⟩
          have := noDoubleWs_append_nonws t ht.2 (' ' :: joinWords (t2 :: ts'')) hrest
          simpa [joinWords] using this

theorem joinWords_wsIsSpace :
    ∀ ts : List (List Char),
      (∀ t ∈ ts, t ≠ [] ∧ ∀ c ∈ t, isPySpace c = false) →
      (joinWords ts).all (fun c => !(isPySpace c) || (c == ' ')) = true := by
  intro ts
  induction ts with
  | nil => intro _; rfl
  | cons t ts' ih =>
      intro h
      have ht := h t (by simp)
      have htok : t.all (fun c => !(isPySpace c) || (c == ' ')) = true := by
        rw [List.all_eq_true]
        intro x hx
        simp [ht.2 x hx]
      cases ts' with
      | nil => simpa [joinWords] using htok
      | cons t2 ts'' =>
          have hgood' : ∀ x ∈ t2 :: ts'', x ≠ [] ∧ ∀ c ∈ x, isPySpace c = false :=
            fun x hx => h x (by simp [hx])
          have hJ := ih hgood'
          simp only [joinWords, List.all_append, List.all_cons]
          simp [htok, hJ]

/- ------------------------------------------------------------------ -/
/- C6 / C7: validate_prompt                                            -/
/- ------------------------------------------------------------------ -/

set_option maxRecDepth 10000

/-- C6 (counterexample): an input of 501 spaces has raw length 501 > 500,
yet `validate_prompt` rejects it with the empty-prompt error, not the
too-long error, because the blank check runs first; so "rejects with
PromptTooLong exactly when length > 500" is false as stated. -/
theorem validate_prompt_tooLong_cex :
    (String.mk (List.replicate 501 ' ')).length > 500
  ∧ validate_prompt (String.mk (List.replicate 501 ' ')) ≠ ValidateResult.promptTooLong
  ∧ validate_prompt (String.mk (List.replicate 501 ' ')) = ValidateResult.emptyPrompt := by
  decide

/-- C6 (amended): `validate_prompt` rejects as empty exactly when the
trimmed input is empty; it rejects as too long exactly when the trimmed
input is non-empty and the raw length exceeds 500 (the blank check takes
priority on overlap); and a successful result has the same whitespace-
separated words as the input, no leading or trailing whitespace, no two
adjacent whitespace characters, and every whitespace character in it is a
single plain space. -/
theorem validate_prompt_spec (p : String) :
    (validate_prompt p = ValidateResult.emptyPrompt ↔ (pyStrip p).length = 0)
  ∧ (validate_prompt p = ValidateResult.promptTooLong ↔
       ((pyStrip p).length ≠ 0 ∧ p.length > 500))
  ∧ (∀ s, validate_prompt p = ValidateResult.ok s →
        wordsOf s.data = wordsOf p.data
      ∧ headNotWs s.data = true
      ∧ headNotWs s.data.reverse = true
      ∧ noDoubleWs s.data = true
      ∧ s.data.all (fun c => !(isPySpace c) || (c == ' ')) = true) := by
  by_cases h1 : p.length = 0 ∨ (pyStrip p).length = 0
  · have hv : validate_prompt p = ValidateResult.emptyPrompt := by
      rw [validate_prompt, if_pos h1]
    have hstrip0 : (pyStrip p).length = 0 := by
      rcases h1 with h1 | h1
      · have hdat : p.data = [] := List.length_eq_zero.mp (show p.data.length = 0 from h1)
        unfold pyStrip
        rw [hdat]
        rfl
      · exact h1
    refine ⟨?_, ?_, ?_⟩
    · simp [hv, hstrip0]
    · simp [hv, hstrip0]
    · intro s hs
      rw [hv] at hs
      exact absurd hs (by simp)
  · have h1' := h1
    rw [not_or] at h1'
    by_cases h2 : p.length > 500
    · have hv : validate_prompt p = ValidateResult.promptTooLong := by
        rw [validate_prompt, if_neg h1, if_pos h2]
      refine ⟨?_, ?_, ?_⟩
      · simp [hv, h1'.2]
      · simp [hv, h1'.2, h2]
      · intro s hs
        rw [hv] at hs
        exact absurd hs (by simp)
    · have hv : validate_prompt p
          = ValidateResult.ok (String.mk (joinWords (wordsOf (stripList p.data)))) := by
        rw [validate_prompt, if_neg h1, if_neg h2]
      have hgood : ∀ t ∈ wordsOf (stripList p.data),
          t ≠ [] ∧ ∀ c ∈ t, isPySpace c = false :=
        splitWsAux_tokens (stripList p.data) [] (by simp)
      refine ⟨?_, ?_, ?_⟩
      · simp [hv, h1'.2]
      · simp [hv, h2]
      · intro s hs
        rw [hv] at hs
        have hs' : String.mk (joinWords (wordsOf (stripList p.data))) = s := by
          injection hs
        subst hs'
        refine ⟨?_, ?_, ?_, ?_, ?_⟩
        · show wordsOf (joinWords (wordsOf (stripList p.data))) = wordsOf p.data
          rw [wordsOf_joinWords _ hgood, wordsOf_stripList]
        · exact joinWords_headNotWs _ hgood
        · exact joinWords_revHeadNotWs _ hgood
        · exact noDoubleWs_joinWords _ hgood
        · exact joinWords_wsIsSpace _ hgood

/-- Witness for `validate_prompt_spec`: the prompt "  a   b " cleans to
"a b", which has the same words, no edge whitespace, and only single
spaces. -/
theorem validate_prompt_spec_witness :
    wordsOf (String.data "a b") = wordsOf (String.data "  a   b ")
  ∧ headNotWs (String.data "a b") = true
  ∧ headNotWs (String.data "a b").reverse = true
  ∧ noDoubleWs (String.data "a b") = true
  ∧ (String.data "a b").all (fun c => !(isPySpace c) || (c == ' ')) = true :=
  (validate_prompt_spec "  a   b ").2.2 "a b" (by decide)

/-- C7: if `validate_prompt` succeeds on an input, running it again on the
cleaned result succeeds and returns the result unchanged. -/
theorem validate_prompt_idempotent (p s : String)
    (h : validate_prompt p = ValidateResult.ok s) :
    validate_prompt s = ValidateResult.ok s := by
  by_cases h1 : p.length = 0 ∨ (pyStrip p).length = 0
  · rw [validate_prompt, if_pos h1] at h
    exact absurd h (by simp)
  · by_cases h2 : p.length > 500
    · rw [validate_prompt, if_neg h1, if_pos h2] at h
      exact absurd h (by simp)
    · rw [validate_prompt, if_neg h1, if_neg h2] at h
      have hs : String.mk (joinWords (wordsOf (stripList p.data))) = s := by
        injection h
      rw [not_or] at h1
      have hstrip_ne : stripList p.data ≠ [] := by
        intro hcontra
        apply h1.2
        show (String.mk (stripList p.data)).length = 0
        rw [hcontra]
        rfl
      have hgood : ∀ t ∈ wordsOf (stripList p.data),
          t ≠ [] ∧ ∀ c ∈ t, isPySpace c = false :=
        splitWsAux_tokens (stripList p.data) [] (by simp)
      have htsne : wordsOf (stripList p.data) ≠ [] := by
        intro hcontra
        have hall : (stripList p.data).all isPySpace = true :=
          ((splitWsAux_eq_nil_iff (stripList p.data) []).mp hcontra).2
        exact hstrip_ne (stripList_allWs_eq_nil _ hall)
      have hJne : joinWords (wordsOf (stripList p.data)) ≠ [] :=
        joinWords_ne_nil _ htsne hgood
      have hhead : headNotWs (joinWords (wordsOf (stripList p.data))) = true :=
        joinWords_headNotWs _ hgood
      have hrevh : headNotWs (joinWords (wordsOf (stripList p.data))).reverse = true :=
        joinWords_revHeadNotWs _ hgood
      have hstripJ : stripList (joinWords (wordsOf (stripList p.data)))
          = joinWords (wordsOf (stripList p.data)) :=
        stripList_of_clean _ hhead hrevh
      have hlen : (joinWords (wordsOf (stripList p.data))).length ≤ 500 := by
        have hb := joinWords_splitWsAux_length (stripList p.data) []
        have hc := stripList_length_le p.data
        have hd : p.data.length ≤ 500 := by
          have hh := Nat.not_lt.mp h2
          exact hh
        unfold wordsOf
        simp only [List.length_nil, Nat.add_zero] at hb
        omega
      subst hs
      have hcond1 : ¬((String.mk (joinWords (wordsOf (stripList p.data)))).length = 0
          ∨ (pyStrip (String.mk (joinWords (wordsOf (stripList p.data))))).length = 0) := by
        rw [not_or]
        constructor
        · show ¬(joinWords (wordsOf (stripList p.data))).length = 0
          simpa [List.length_eq_zero] using hJne
        · show ¬(stripList (joinWords (wordsOf (stripList p.data)))).length = 0
          rw [hstripJ]
          simpa [List.length_eq_zero] using hJne
      have hcond2 : ¬((String.mk (joinWords (wordsOf (stripList p.data)))).length > 500) := by
        show ¬(joinWords (wordsOf (stripList p.data))).length > 500
        omega
      rw [validate_prompt, if_neg hcond1, if_neg hcond2]
      show ValidateResult.ok
          (String.mk (joinWords (wordsOf (stripList (joinWords (wordsOf (stripList p.data)))))))
        = ValidateResult.ok (String.mk (joinWords (wordsOf (stripList p.data))))
      rw [hstripJ, wordsOf_joinWords _ hgood]

/-- Witness for `validate_prompt_idempotent`: " x  y " validates to
"x y", and validating "x y" returns it unchanged. -/
theorem validate_prompt_idempotent_witness :
    validate_prompt "x y" = ValidateResult.ok "x y" :=
  validate_prompt_idempotent " x  y " "x y" (by decide)

/- ------------------------------------------------------------------ -/
/- GenerationClient: `generate_image`, src/app.py lines 60-105         -/
/- ------------------------------------------------------------------ -/

/-- Model of a PIL image: dimensions plus a fill colour.  `Image.new('RGB',
(512, 512), color=(73, 109, 137))` is the solid placeholder; an image
decoded from live response bytes is carried abstractly as whatever
`HttpResponse.content` holds. -/
structure PILImage where
  width : ℕ
  height : ℕ
  color : ℕ × ℕ × ℕ
deriving DecidableEq, Repr

/-- Model of one HTTP response from the inference endpoint.  `body` models
`response.json().get("error", ...)`: `Option.none` is a non-JSON body,
`some Option.none` is JSON without an "error" field, and `some (some m)`
is JSON carrying error message `m`.  `content` is the image decoded from
the body when the status is 200. -/
structure HttpResponse where
  status : ℕ
  body : Option (Option String)
  content : PILImage
deriving DecidableEq, Repr

/-- Observable side effects of `generate_image`: a network POST to a model
endpoint with the prompt payload, or a `time.sleep` of the given number of
seconds. -/
inductive GenEvent
  | post (url : String) (prompt : String)
  | sleep (secs : ℕ)
deriving DecidableEq, Repr

/-- Result of `generate_image`: a returned image, or the error path
(`st.error(message)` followed by `return None`), abstracted as a
generation error carrying the HTTP status code and the displayed
message. -/
inductive GenResult
  | img (i : PILImage)
  | genError (statusCode : ℕ) (message : String)
deriving DecidableEq, Repr

/-- Style-to-model routing (src/app.py lines 75-80): cyberpunk and cartoon
both route to FLUX.1-dev, anything else to stable-diffusion-xl-base-1.0. -/
def model_id (style : Option String) : String :=
  if style = some "cyberpunk" then "black-forest-labs/FLUX.1-dev"
  else if style = some "cartoon" then "black-forest-labs/FLUX.1-dev"
  else "stabilityai/stable-diffusion-xl-base-1.0"

/-- The inference endpoint URL (src/app.py line 82). -/
def apiUrl (m : String) : String := "https://api-inference.huggingface.co/models/" ++ m

/-- Error message shown on the error path (src/app.py lines 98-104): the
parsed "error" field when the body is JSON, the `.get` default
"Unknown error" for JSON without that field, and "API error" for a
non-JSON body; the HTTP status code is appended in every case. -/
def errMessage (r : HttpResponse) : String :=
  match r.body with
  | some (some m) =>
      "Failed to generate image: " ++ m ++ " (Status code: " ++ toString r.status ++ ")"
  | some Option.none =>
      "Failed to generate image: Unknown error (Status code: " ++ toString r.status ++ ")"
  | Option.none =>
      "Failed to generate image: API error (Status code: " ++ toString r.status ++ ")"

/-- Python truthiness of the token: `not API_TOKEN` holds when the secret
is absent or the empty string. -/
def tokenFalsy (token : Option String) : Bool := token.getD "" == ""

/-- The session's `demo_mode` flag after the token check on lines 62-66:
a missing/empty token forces the flag to `True`; otherwise the session
value (possibly absent) is left untouched. -/
def sessionFlagAfter (token : Option String) (flag : Option Bool) : Option Bool :=
  if tokenFalsy token then some true else flag

/-- `st.session_state.get('demo_mode', True)` on line 68, evaluated after
the token check: the flag's value with default `True`. -/
def demoResolved (token : Option String) (flag : Option Bool) : Bool :=
  (sessionFlagAfter token flag).getD true

/-- The retry loop of src/app.py lines 83-97 plus the error path of lines
98-105.  `resp attempt` is the response the endpoint returns to the POST
issued on that attempt; `remaining` counts loop iterations left
(`range(3)` starts it at 3).  Status 200 returns the decoded image;
status 429 sleeps `2 ^ attempt` seconds and retries; any other status
breaks out; when the loop exhausts, the error path uses the last
response received. -/
def liveLoop (resp : ℕ → HttpResponse) (url prompt : String) :
    ℕ → ℕ → GenResult × List GenEvent
  | attempt, 0 =>
      (GenResult.genError (resp (attempt - 1)).status (errMessage (resp (attempt - 1))), [])
  | attempt, remaining + 1 =>
      let r := resp attempt
      if r.status = 200 then (GenResult.img r.content, [GenEvent.post url prompt])
      else if r.status = 429 then
        let rest := liveLoop resp url prompt (attempt + 1) remaining
        (rest.1, GenEvent.post url prompt :: GenEvent.sleep (2 ^ attempt) :: rest.2)
      else (GenResult.genError r.status (errMessage r), [GenEvent.post url prompt])

/-- Embedding of `generate_image` (src/app.py lines 60-105).  Inputs: the
configured secret, the session's `demo_mode` flag (absent keys modelled
as `Option.none`), the endpoint's scripted responses, the prompt, and the
style.  Output: the result, the emitted network/sleep events in order,
and the session flag after the call. -/
def generate_image (token : Option String) (flag : Option Bool)
    (resp : ℕ → HttpResponse) (prompt : String) (style : Option String) :
    GenResult × List GenEvent × Option Bool :=
  if demoResolved token flag then
    (GenResult.img ⟨512, 512, (73, 109, 137)⟩, [GenEvent.sleep 3], sessionFlagAfter token flag)
  else
    let r := liveLoop resp (apiUrl (model_id style)) prompt 0 3
    (r.1, r.2, sessionFlagAfter token flag)

/- ------------------------------------------------------------------ -/
/- C3 / C5 / C10: generate_image                                       -/
/- ------------------------------------------------------------------ -/

/-- C3: live-mode protocol of `generate_image` (credential present,
`demo_mode` explicitly false).  Status 200 returns the decoded image at
once; 429 retries after a `2 ^ attempt`-second sleep, up to 3 total
attempts, and three consecutive 429s fall through to the error path with
the last response; any other status breaks out immediately with no
retry; the error path yields a generation error carrying the status code
and a message that is the parsed body's error field when present and
always embeds the status code; no image is returned on that path. -/
theorem generate_image_live_protocol (tk : String) (htk : tk ≠ "")
    (resp : ℕ → HttpResponse) (prompt : String) (style : Option String) :
    (((resp 0).status = 200 →
        generate_image (some tk) (some false) resp prompt style
          = (GenResult.img (resp 0).content,
             [GenEvent.post (apiUrl (model_id style)) prompt], some false))
  ∧ ((resp 0).status = 429 → (resp 1).status = 200 →
        generate_image (some tk) (some false) resp prompt style
          = (GenResult.img (resp 1).content,
             [GenEvent.post (apiUrl (model_id style)) prompt, GenEvent.sleep 1,
              GenEvent.post (apiUrl (model_id style)) prompt], some false))
  ∧ ((resp 0).status = 429 → (resp 1).status = 429 → (resp 2).status = 200 →
        generate_image (some tk) (some false) resp prompt style
          = (GenResult.img (resp 2).content,
             [GenEvent.post (apiUrl (model_id style)) prompt, GenEvent.sleep 1,
              GenEvent.post (apiUrl (model_id style)) prompt, GenEvent.sleep 2,
              GenEvent.post (apiUrl (model_id style)) prompt], some false))
  ∧ ((resp 0).status = 429 → (resp 1).status = 429 → (resp 2).status = 429 →
        generate_image (some tk) (some false) resp prompt style
          = (GenResult.genError (resp 2).status (errMessage (resp 2)),
             [GenEvent.post (apiUrl (model_id style)) prompt, GenEvent.sleep 1,
              GenEvent.post (apiUrl (model_id style)) prompt, GenEvent.sleep 2,
              GenEvent.post (apiUrl (model_id style)) prompt, GenEvent.sleep 4], some false))
  ∧ ((resp 0).status ≠ 200 → (resp 0).status ≠ 429 →
        generate_image (some tk) (some false) resp prompt style
          = (GenResult.genError (resp 0).status (errMessage (resp 0)),
             [GenEvent.post (apiUrl (model_id style)) prompt], some false))
  ∧ ((resp 0).status = 429 → (resp 1).status ≠ 200 → (resp 1).status ≠ 429 →
        generate_image (some tk) (some false) resp prompt style
          = (GenResult.genError (resp 1).status (errMessage (resp 1)),
             [GenEvent.post (apiUrl (model_id style)) prompt, GenEvent.sleep 1,
              GenEvent.post (apiUrl (model_id style)) prompt], some false)))
  ∧ (∀ r : HttpResponse,
        (∃ pre suf : String, errMessage r = pre ++ toString r.status ++ suf)
      ∧ (∀ m, r.body = some (some m) →
            errMessage r = "Failed to generate image: " ++ m
              ++ " (Status code: " ++ toString r.status ++ ")")) := by
  have hd : demoResolved (some tk) (some false) = false := by
    simp [demoResolved, sessionFlagAfter, tokenFalsy, htk]
  have hflag : sessionFlagAfter (some tk) (some false) = some false := by
    simp [sessionFlagAfter, tokenFalsy, htk]
  refine ⟨⟨?_, ?_, ?_, ?_, ?_, ?_⟩, ?_⟩
  · intro h0
    simp [generate_image, hd, hflag, liveLoop, h0]
  · intro h0 h1
    simp [generate_image, hd, hflag, liveLoop, h0, h1]
  · intro h0 h1 h2
    simp [generate_image, hd, hflag, liveLoop, h0, h1, h2]
  · intro h0 h1 h2
    simp [generate_image, hd, hflag, liveLoop, h0, h1, h2]
  · intro h0 h0'
    simp [generate_image, hd, hflag, liveLoop, h0, h0']
  · intro h0 h1 h1'
    simp [generate_image, hd, hflag, liveLoop, h0, h1, h1']
  · intro r
    constructor
    · match hb : r.body with
      | some (some m) =>
          exact ⟨"Failed to generate image: " ++ m ++ " (Status code: ", ")",
            by simp [errMessage, hb, String.append_assoc]⟩
      | some Option.none =>
          exact ⟨"Failed to generate image: Unknown error (Status code: ", ")",
            by simp [errMessage, hb]⟩
      | Option.none =>
          exact ⟨"Failed to generate image: API error (Status code: ", ")",
            by simp [errMessage, hb]⟩
    · intro m hm
      simp [errMessage, hm]

/-- Witness for `generate_image_live_protocol`: an endpoint that always
answers 429 with a non-JSON body; the call fails with status 429, the
generic message carrying the status code, and the full backoff trace. -/
theorem generate_image_live_protocol_witness :
    generate_image (some "tok") (some false)
        (fun _ => ⟨429, Option.none, ⟨0, 0, (0, 0, 0)⟩⟩) "p" Option.none
      = (GenResult.genError 429
           "Failed to generate image: API error (Status code: 429)",
         [GenEvent.post (apiUrl (model_id Option.none)) "p", GenEvent.sleep 1,
          GenEvent.post (apiUrl (model_id Option.none)) "p", GenEvent.sleep 2,
          GenEvent.post (apiUrl (model_id Option.none)) "p", GenEvent.sleep 4],
         some false) := by
  have h := (generate_image_live_protocol "tok" (by decide)
    (fun _ => ⟨429, Option.none, ⟨0, 0, (0, 0, 0)⟩⟩) "p" Option.none).1.2.2.2.1 rfl rfl rfl
  rw [h]
  rfl

/-- C5: in fallback (demo) mode `generate_image` always succeeds for every
prompt and style, returning the fixed 512x512 solid-colour placeholder
through the same `GenResult.img` constructor a live success uses, with a
single artificial 3-second sleep as its only side effect — in particular
no network POST is ever issued. -/
theorem generate_image_fallback (token : Option String) (flag : Option Bool)
    (resp : ℕ → HttpResponse) (prompt : String) (style : Option String)
    (h : demoResolved token flag = true) :
    generate_image token flag resp prompt style
      = (GenResult.img ⟨512, 512, (73, 109, 137)⟩, [GenEvent.sleep 3],
         sessionFlagAfter token flag)
  ∧ (∀ u q, GenEvent.post u q ∉ (generate_image token flag resp prompt style).2.1) := by
  constructor
  · simp [generate_image, h]
  · intro u q
    simp [generate_image, h]

/-- Witness for `generate_image_fallback`: with no credential and no
session flag the call is in fallback mode and returns the placeholder. -/
theorem generate_image_fallback_witness :
    generate_image Option.none Option.none (fun _ => ⟨404, Option.none, ⟨0, 0, (0, 0, 0)⟩⟩)
        "p" (some "realistic")
      = (GenResult.img ⟨512, 512, (73, 109, 137)⟩, [GenEvent.sleep 3], some true)
  ∧ (∀ u q, GenEvent.post u q ∉
      (generate_image Option.none Option.none
        (fun _ => ⟨404, Option.none, ⟨0, 0, (0, 0, 0)⟩⟩) "p" (some "realistic")).2.1) := by
  have h := generate_image_fallback Option.none Option.none
    (fun _ => ⟨404, Option.none, ⟨0, 0, (0, 0, 0)⟩⟩) "p" (some "realistic") (by decide)
  exact ⟨h.1.trans (by rfl), h.2⟩

/-- C10: when the `demo_mode` key is absent from the session state,
`generate_image` runs in fallback mode even with a credential configured
(`st.session_state.get('demo_mode', True)` defaults to True); live mode
is reached exactly when the token is non-empty and the flag was
explicitly set to false. -/
theorem generate_image_demo_default (token : Option String)
    (resp : ℕ → HttpResponse) (prompt : String) (style : Option String) :
    ((generate_image token Option.none resp prompt style).1
        = GenResult.img ⟨512, 512, (73, 109, 137)⟩
  ∧ (generate_image token Option.none resp prompt style).2.1 = [GenEvent.sleep 3])
  ∧ (∀ flag : Option Bool,
       demoResolved token flag = false ↔ tokenFalsy token = false ∧ flag = some false) := by
  have hnone : demoResolved token Option.none = true := by
    by_cases ht : tokenFalsy token = true
    · simp [demoResolved, sessionFlagAfter, ht]
    · simp only [Bool.not_eq_true] at ht
      simp [demoResolved, sessionFlagAfter, ht]
  refine ⟨⟨?_, ?_⟩, ?_⟩
  · simp [generate_image, hnone]
  · simp [generate_image, hnone]
  · intro flag
    by_cases ht : tokenFalsy token = true
    · simp [demoResolved, sessionFlagAfter, ht]
    · simp only [Bool.not_eq_true] at ht
      cases flag with
      | none => simp [demoResolved, sessionFlagAfter, ht]
      | some b => cases b <;> simp [demoResolved, sessionFlagAfter, ht]

/- ------------------------------------------------------------------ -/
/- RecordStore: `save_image` / `delete_image`, src/app.py 108-133      -/
/- ------------------------------------------------------------------ -/

/-- A row of the `prompts` table (src/app.py lines 32-41): id from the
auto-increment key, prompt, expected style, blob filename, creation
timestamp, and the optional evaluation columns. -/
structure RowRec where
  id : ℕ
  prompt : String
  expected_style : String
  filename : String
  created_at : ℕ
  score : Option ℤ
  feedback : Option String
deriving DecidableEq, Repr

/-- Combined state of the blob directory (`generated_images/`) and the
SQLite table; `nextId` models the auto-increment counter
(`last_insert_rowid`). -/
structure StoreState where
  blobs : List (String × PILImage)
  rows : List RowRec
  nextId : ℕ
deriving DecidableEq, Repr

/-- Observable writes of the record store, in program order. -/
inductive StoreEvent
  | blobWrite (filename : String)
  | metaInsert (id : ℕ)
  | blobRemove (filename : String)
  | metaDelete (id : ℕ)
deriving DecidableEq, Repr

/-- Failure modes of `save_image`: the dimension guard on line 109
(`st.error` + `return None, None`), or a failing `image.save` call whose
exception would skip the metadata insert. -/
inductive SaveError
  | imageTooLarge
  | blobWriteFailed
deriving DecidableEq, Repr

/-- The timestamp-derived blob name of line 113; the `strftime` rendering
of the timestamp is abstracted as its decimal form. -/
def imageFilename (now : ℕ) : String :=
  "generated_images/image_" ++ toString now ++ ".png"

/-- Embedding of `save_image` (src/app.py lines 108-124): reject oversized
images before any write; otherwise write the blob, and only if that
succeeded insert the metadata row (score and feedback NULL) and return
the filename with the generated row id. -/
def save_image (s : StoreState) (blobWriteOk : Bool) (image : PILImage)
    (prompt expected_style : String) (now : ℕ) :
    Except SaveError (String × ℕ) × StoreState × List StoreEvent :=
  if image.width > 4096 ∨ image.height > 4096 then
    (Except.error SaveError.imageTooLarge, s, [])
  else if blobWriteOk then
    (Except.ok (imageFilename now, s.nextId),
     ⟨(imageFilename now, image) :: s.blobs,
      s.rows ++ [⟨s.nextId, prompt, expected_style, imageFilename now, now,
        Option.none, Option.none⟩],
      s.nextId + 1⟩,
     [StoreEvent.blobWrite (imageFilename now), StoreEvent.metaInsert s.nextId])
  else
    (Except.error SaveError.blobWriteFailed, s, [])

/-- Embedding of `os.path.exists` restricted to the blob directory. -/
def blobExists (s : StoreState) (filename : String) : Bool :=
  s.blobs.any (fun b => b.1 == filename)

/-- Embedding of `delete_image` (src/app.py lines 127-133): remove the
blob file if it exists (a no-op otherwise), then delete every row whose
id matches. -/
def delete_image (s : StoreState) (prompt_id : ℕ) (filename : String) :
    StoreState × List StoreEvent :=
  let hadBlob := blobExists s filename
  let s1 : StoreState :=
    if hadBlob then ⟨s.blobs.filter (fun b => !(b.1 == filename)), s.rows, s.nextId⟩ else s
  let s2 : StoreState := ⟨s1.blobs, s1.rows.filter (fun r => !(r.id == prompt_id)), s1.nextId⟩
  (s2, (if hadBlob then [StoreEvent.blobRemove filename] else [])
        ++ [StoreEvent.metaDelete prompt_id])

/-- Embedding of `get(recordId)` (a `SELECT ... WHERE id = ?` as used by
the gallery): the first row with the given id. -/
def getRecord (s : StoreState) (id : ℕ) : Option RowRec :=
  s.rows.find? (fun r => r.id == id)

theorem find?_filter_ne (rows : List RowRec) (i : ℕ) :
    (rows.filter (fun r => !(r.id == i))).find? (fun r => r.id == i) = Option.none := by
  induction rows with
  | nil => rfl
  | cons r rs ih =>
      by_cases h : r.id = i
      · simp [List.filter_cons, h, ih]
      · simp [List.filter_cons, h, List.find?_cons, ih]

theorem any_filter_ne (blobs : List (String × PILImage)) (f : String) :
    (blobs.filter (fun b => !(b.1 == f))).any (fun b => b.1 == f) = false := by
  induction blobs with
  | nil => rfl
  | cons b bs ih =>
      by_cases h : b.1 = f
      · simp [List.filter_cons, h, ih]
      · simp [List.filter_cons, h, ih]

/- ------------------------------------------------------------------ -/
/- C4 / C8: save_image and delete_image                                -/
/- ------------------------------------------------------------------ -/

/-- C4: `save_image` rejects with the image-too-large error and performs no
write at all when either dimension exceeds 4096; otherwise it writes the
blob first and inserts the metadata row only after the blob write
succeeded, returning the generated record id; a metadata insert can only
appear in a trace that starts with the blob write. -/
theorem save_image_spec (s : StoreState) (ok : Bool) (image : PILImage)
    (prompt expected_style : String) (now : ℕ) :
    (image.width > 4096 ∨ image.height > 4096 →
       save_image s ok image prompt expected_style now
         = (Except.error SaveError.imageTooLarge, s, []))
  ∧ (image.width ≤ 4096 → image.height ≤ 4096 → ok = true →
       save_image s ok image prompt expected_style now
         = (Except.ok (imageFilename now, s.nextId),
            ⟨(imageFilename now, image) :: s.blobs,
             s.rows ++ [⟨s.nextId, prompt, expected_style, imageFilename now, now,
               Option.none, Option.none⟩],
             s.nextId + 1⟩,
            [StoreEvent.blobWrite (imageFilename now), StoreEvent.metaInsert s.nextId]))
  ∧ (image.width ≤ 4096 → image.height ≤ 4096 → ok = false →
       save_image s ok image prompt expected_style now
         = (Except.error SaveError.blobWriteFailed, s, []))
  ∧ (∀ i, StoreEvent.metaInsert i ∈ (save_image s ok image prompt expected_style now).2.2 →
       (save_image s ok image prompt expected_style now).2.2
         = [StoreEvent.blobWrite (imageFilename now), StoreEvent.metaInsert s.nextId]) := by
  refine ⟨?_, ?_, ?_, ?_⟩
  · intro h
    simp [save_image, h]
  · intro hw hh hok
    have hcond : ¬(image.width > 4096 ∨ image.height > 4096) := by omega
    simp [save_image, hcond, hok]
  · intro hw hh hok
    have hcond : ¬(image.width > 4096 ∨ image.height > 4096) := by omega
    simp [save_image, hcond, hok]
  · intro i hi
    by_cases hcond : image.width > 4096 ∨ image.height > 4096
    · simp [save_image, hcond] at hi
    · by_cases hok : ok = true
      · simp [save_image, hcond, hok]
      · simp only [Bool.not_eq_true] at hok
        simp [save_image, hcond, hok] at hi

/-- Witness for `save_image_spec`: saving a 512x512 image into an empty
store writes the blob, then inserts row 1, and returns id 1. -/
theorem save_image_spec_witness :
    save_image ⟨[], [], 1⟩ true ⟨512, 512, (73, 109, 137)⟩ "a castle" "realistic" 20240101
      = (Except.ok (imageFilename 20240101, 1),
         ⟨[(imageFilename 20240101, ⟨512, 512, (73, 109, 137)⟩)],
          [⟨1, "a castle", "realistic", imageFilename 20240101, 20240101,
            Option.none, Option.none⟩],
          2⟩,
         [StoreEvent.blobWrite (imageFilename 20240101), StoreEvent.metaInsert 1]) := by
  have h := (save_image_spec ⟨[], [], 1⟩ true ⟨512, 512, (73, 109, 137)⟩
    "a castle" "realistic" 20240101).2.1 (by decide) (by decide) rfl
  exact h

/-- C8: after `delete_image s id f` the record id is gone from the table
and the blob f is gone from the blob directory; when the blob was already
absent the blob store is untouched (the removal is a no-op) and only the
row deletion happens; when it was present the blob removal is performed
first and the row deletion second. -/
theorem delete_image_spec (s : StoreState) (prompt_id : ℕ) (filename : String) :
    getRecord (delete_image s prompt_id filename).1 prompt_id = Option.none
  ∧ blobExists (delete_image s prompt_id filename).1 filename = false
  ∧ (blobExists s filename = false →
       (delete_image s prompt_id filename).1.blobs = s.blobs
     ∧ (delete_image s prompt_id filename).2 = [StoreEvent.metaDelete prompt_id])
  ∧ (blobExists s filename = true →
       (delete_image s prompt_id filename).2
         = [StoreEvent.blobRemove filename, StoreEvent.metaDelete prompt_id]) := by
  refine ⟨?_, ?_, ?_, ?_⟩
  · by_cases hb : blobExists s filename = true
    · simp [delete_image, getRecord, hb, find?_filter_ne]
    · simp only [Bool.not_eq_true] at hb
      simp [delete_image, getRecord, hb, find?_filter_ne]
  · by_cases hb : blobExists s filename = true
    · have hb2 : (s.blobs.any fun b => b.1 == filename) = true := hb
      simp [delete_image, blobExists, hb2, any_filter_ne]
    · simp only [Bool.not_eq_true] at hb
      have hb2 : (s.blobs.any fun b => b.1 == filename) = false := hb
      simp [delete_image, blobExists, hb2]
  · intro hb
    simp [delete_image, hb]
  · intro hb
    simp [delete_image, hb]

/-- Witness for `delete_image_spec`: deleting record 1 and its blob from a
one-record store removes the blob first, then the row, leaving the record
unreadable. -/
theorem delete_image_spec_witness :
    (delete_image
        ⟨[("generated_images/image_7.png", ⟨512, 512, (73, 109, 137)⟩)],
         [⟨1, "p", "realistic", "generated_images/image_7.png", 7,
           Option.none, Option.none⟩], 2⟩
        1 "generated_images/image_7.png").2
      = [StoreEvent.blobRemove "generated_images/image_7.png",
         StoreEvent.metaDelete 1] :=
  (delete_image_spec
    ⟨[("generated_images/image_7.png", ⟨512, 512, (73, 109, 137)⟩)],
     [⟨1, "p", "realistic", "generated_images/image_7.png", 7,
       Option.none, Option.none⟩], 2⟩
    1 "generated_images/image_7.png").2.2.2 (by decide)

/- ------------------------------------------------------------------ -/
/- Blob-root containment: `get_image_base64`, src/app.py lines 165-171 -/
/- ------------------------------------------------------------------ -/

/-- Boolean list-prefix test (character lists). -/
def leadsWith : List Char → List Char → Bool
  | [], _ => true
  | _ :: _, [] => false
  | a :: as, b :: bs => (a == b) && leadsWith as bs

/-- Embedding of Python `str.startswith`: the first string starts with the
second. -/
def strStartsWith (s pre : String) : Bool := leadsWith pre.data s.data

/-- True when the path string begins with a slash. -/
def isAbsolutePath (s : String) : Bool :=
  match s.data with
  | c :: _ => c == '/'
  | [] => false

/-- Worker splitting a character list on slashes (keeping empty pieces,
which `pathComponents` filters out). -/
def splitSlashAux : List Char → List Char → List (List Char)
  | [], acc => [acc.reverse]
  | c :: cs, acc =>
      if c == '/' then acc.reverse :: splitSlashAux cs []
      else splitSlashAux cs (c :: acc)

/-- Split a path on slashes and drop empty and "." components. -/
def pathComponents (s : String) : List String :=
  ((splitSlashAux s.data []).map String.mk).filter (fun c => !(c == "") && !(c == "."))

/-- POSIX path normalisation on components: ".." pops the previous
component (and is dropped at the root). -/
def normComponents (cs : List String) : List String :=
  cs.foldl (fun acc c => if c == ".." then acc.dropLast else acc ++ [c]) []

/-- Embedding of Python `os.path.abspath` (POSIX): join a relative path
onto the working directory, resolve "." and "..", collapse slashes. -/
def pyAbspath (cwd path : String) : String :=
  let comps := if isAbsolutePath path then pathComponents path
               else pathComponents cwd ++ pathComponents path
  "/" ++ String.intercalate "/" (normComponents comps)

/-- An absolute path lies inside the directory `base`: it is `base` itself
or extends it past a path separator. -/
def insideDir (base full : String) : Bool :=
  (full == base) || strStartsWith full (base ++ "/")

/-- Embedding of `get_image_base64` (src/app.py lines 165-171): resolve
the blob root and the requested path to absolute paths, refuse when the
resolved path does not start with the root string or the file does not
exist, and otherwise return the file's bytes (the base64 rendering of the
returned bytes is abstracted away). -/
def get_image_base64 (cwd : String) (fileBytes : String → Option (List ℕ))
    (image_path : String) : Option (List ℕ) :=
  let base_dir := pyAbspath cwd "generated_images"
  let full_path := pyAbspath cwd image_path
  if !(strStartsWith full_path base_dir) || (fileBytes full_path).isNone then Option.none
  else fileBytes full_path

/- ------------------------------------------------------------------ -/
/- C2: blob-root containment check                                     -/
/- ------------------------------------------------------------------ -/

/-- C2 (code bug): the containment check of `get_image_base64` compares
string prefixes without a trailing path separator, so a reference that
resolves to a sibling directory sharing the name prefix —
"/app/generated_imagesX/a.png", outside the blob root
"/app/generated_images" — passes the check and its file bytes are read
and returned, contradicting the required rejection.  (A genuine ".."
traversal such as "generated_images/../secret.txt" resolves outside the
prefix and is rejected, which is what the check is clearly meant to do.) -/
theorem get_image_base64_traversal_bug :
    insideDir (pyAbspath "/app" "generated_images")
        (pyAbspath "/app" "generated_imagesX/a.png") = false
  ∧ get_image_base64 "/app"
      (fun p => if p == "/app/generated_imagesX/a.png" then some [7] else Option.none)
      "generated_imagesX/a.png" = some [7]
  ∧ get_image_base64 "/app"
      (fun p => if p == "/app/secret.txt" then some [9] else Option.none)
      "generated_images/../secret.txt" = Option.none := by
  decide

/- ------------------------------------------------------------------ -/
/- EvaluationAggregator: the report tab of `main`, src/app.py 310-330  -/
/- ------------------------------------------------------------------ -/

/-- The list comprehension of line 313: rows whose `score` column is not
NULL. -/
def evaluatedRecords (rs : List RowRec) : List RowRec :=
  rs.filter (fun p => p.score.isSome)

/-- The overall statistic of lines 314-318: the mean score over evaluated
rows, computed only when at least one row is evaluated (the empty case is
reported to the caller as the absent value). -/
def overallAverage (rs : List RowRec) : Option ℚ :=
  if (evaluatedRecords rs).length = 0 then Option.none
  else some (((((evaluatedRecords rs).map (fun p => p.score.getD 0)).sum : ℤ) : ℚ)
    / ((evaluatedRecords rs).length : ℚ))

/-- One step of the grouping loop of lines 322-327: append the score to the
style's list, creating the entry at the end on first occurrence (Python
dict insertion order). -/
def insertScore : List (String × List ℤ) → String → ℤ → List (String × List ℤ)
  | [], st, sc => [(st, [sc])]
  | (k, v) :: rest, st, sc =>
      if k = st then (k, v ++ [sc]) :: rest
      else (k, v) :: insertScore rest st sc

/-- The style/score pairs the grouping loop iterates over. -/
def scorePairs (rs : List RowRec) : List (String × ℤ) :=
  (evaluatedRecords rs).map (fun p => (p.expected_style, p.score.getD 0))

/-- Fold the grouping step over a pair list. -/
def insertAll (g : List (String × List ℤ)) (l : List (String × ℤ)) :
    List (String × List ℤ) :=
  l.foldl (fun acc p => insertScore acc p.1 p.2) g

/-- The `styles` dict after the loop of lines 322-327. -/
def groupedScores (rs : List RowRec) : List (String × List ℤ) :=
  insertAll [] (scorePairs rs)

/-- Mean of one style's score list (line 329). -/
def styleAvg (v : List ℤ) : ℚ := ((v.sum : ℤ) : ℚ) / (v.length : ℚ)

/-- The per-style report of lines 321-330: mean score per style present in
the grouping. -/
def averageByStyle (rs : List RowRec) : List (String × ℚ) :=
  (groupedScores rs).map (fun kv => (kv.1, styleAvg kv.2))

/-- Python dict lookup on the association-list model. -/
def lookupStyle {β : Type} : List (String × β) → String → Option β
  | [], _ => Option.none
  | (k, v) :: rest, st => if st = k then some v else lookupStyle rest st

/-- Record set of the worked example: two realistic records scored 6 and 8
and one cartoon record scored 10. -/
def exampleRecords : List RowRec :=
  [⟨1, "p1", "realistic", "f1", 1, some 6, Option.none⟩,
   ⟨2, "p2", "realistic", "f2", 2, some 8, Option.none⟩,
   ⟨3, "p3", "cartoon", "f3", 3, some 10, Option.none⟩]

theorem lookupStyle_insertScore (g : List (String × List ℤ)) (st st' : String) (sc : ℤ) :
    lookupStyle (insertScore g st' sc) st
      = if st = st' then some (((lookupStyle g st).getD []) ++ [sc])
        else lookupStyle g st := by
  induction g with
  | nil =>
      by_cases h : st = st' <;> simp [insertScore, lookupStyle, h]
  | cons kv rest ih =>
      obtain ⟨k, v⟩ := kv
      by_cases hk : k = st'
      · subst hk
        by_cases hst : st = k
        · subst hst
          simp [insertScore, lookupStyle]
        · simp [insertScore, lookupStyle, hst]
      · by_cases hst : st = k
        · have hss : ¬ st = st' := by
            rw [hst]
            exact hk
          simp [insertScore, hk, lookupStyle, hst, hss]
        · simp [insertScore, hk, lookupStyle, hst, ih]

/-- Append semantics of an optional group: extend an existing group, start
a fresh one only when there is something to put in it. -/
def optAppend (o : Option (List ℤ)) (xs : List ℤ) : Option (List ℤ) :=
  match o with
  | some v => some (v ++ xs)
  | Option.none => if xs = [] then Option.none else some xs

theorem lookupStyle_insertAll (l : List (String × ℤ)) :
    ∀ (g : List (String × List ℤ)) (st : String),
      lookupStyle (insertAll g l) st
        = optAppend (lookupStyle g st)
            ((l.filter (fun p => p.1 == st)).map (fun p => p.2)) := by
  induction l with
  | nil =>
      intro g st
      cases h : lookupStyle g st <;> simp [insertAll, optAppend, h]
  | cons p l' ih =>
      intro g st
      obtain ⟨k, sc⟩ := p
      have hstep : insertAll g ((k, sc) :: l') = insertAll (insertScore g k sc) l' := rfl
      rw [hstep, ih (insertScore g k sc) st, lookupStyle_insertScore]
      by_cases h : st = k
      · subst h
        simp only [List.filter_cons, beq_self_eq_true, if_true, List.map_cons]
        cases hg : lookupStyle g st with
        | none => simp [optAppend]
        | some v => simp [optAppend]
      · have h2 : ¬ (k = st) := fun hc => h hc.symm
        simp [List.filter_cons, h, h2]

theorem lookupStyle_map_avg (g : List (String × List ℤ)) (st : String) :
    lookupStyle (g.map (fun kv => (kv.1, styleAvg kv.2))) st
      = (lookupStyle g st).map styleAvg := by
  induction g with
  | nil => rfl
  | cons kv rest ih =>
      obtain ⟨k, v⟩ := kv
      by_cases h : st = k <;> simp [lookupStyle, h, ih]

theorem pairs_filter_map (e : List RowRec) (st : String) :
    (((e.map (fun p => (p.expected_style, p.score.getD 0))).filter
        (fun p => p.1 == st)).map (fun p => p.2))
      = ((e.filter (fun p => p.expected_style == st)).map (fun p => p.score.getD 0)) := by
  induction e with
  | nil => rfl
  | cons p ps ih =>
      by_cases h : p.expected_style = st
      · simp [List.filter_cons, h, ih]
      · simp [List.filter_cons, h, ih]

theorem scorePairs_filter_ne_nil_iff (rs : List RowRec) (st : String) :
    (((scorePairs rs).filter (fun p => p.1 == st)) ≠ []) ↔
      ∃ p ∈ rs, p.score.isSome = true ∧ p.expected_style = st := by
  constructor
  · intro hne
    obtain ⟨pair, hpair⟩ := List.exists_mem_of_ne_nil _ hne
    obtain ⟨hmem1, hcond⟩ := List.mem_filter.mp hpair
    unfold scorePairs at hmem1
    obtain ⟨p, hp, hpe⟩ := List.mem_map.mp hmem1
    have hpr := List.mem_filter.mp hp
    refine ⟨p, hpr.1, hpr.2, ?_⟩
    have hp1 : pair.1 = st := by simpa using hcond
    rw [← hpe] at hp1
    exact hp1
  · rintro ⟨p, hp, hs, hst⟩
    intro hnil
    have hp' : p ∈ evaluatedRecords rs := List.mem_filter.mpr ⟨hp, hs⟩
    have hpair : (p.expected_style, p.score.getD 0) ∈ scorePairs rs :=
      List.mem_map.mpr ⟨p, hp', rfl⟩
    have hin : (p.expected_style, p.score.getD 0)
        ∈ (scorePairs rs).filter (fun x => x.1 == st) :=
      List.mem_filter.mpr ⟨hpair, by simp [hst]⟩
    rw [hnil] at hin
    simp at hin

/- ------------------------------------------------------------------ -/
/- C9: evaluation report                                               -/
/- ------------------------------------------------------------------ -/

/-- C9: `overallAverage` is absent exactly when no record has a score, and
when present it is the arithmetic mean of the present scores;
`averageByStyle` has an entry for a style exactly when some evaluated
record carries it (styles with no evaluated record are absent), and each
entry is the mean of that style's scores; on the worked example the
overall mean is 8 and the per-style means are realistic 7 and
cartoon 10. -/
theorem evaluation_report_spec (rs : List RowRec) :
    (overallAverage rs = Option.none ↔ ∀ p ∈ rs, p.score = Option.none)
  ∧ (∀ q, overallAverage rs = some q →
        q * ((evaluatedRecords rs).length : ℚ)
          = ((((evaluatedRecords rs).map (fun p => p.score.getD 0)).sum : ℤ) : ℚ))
  ∧ (∀ st, (lookupStyle (averageByStyle rs) st).isSome = true ↔
        ∃ p ∈ rs, p.score.isSome = true ∧ p.expected_style = st)
  ∧ (∀ st q, lookupStyle (averageByStyle rs) st = some q →
        q * ((((evaluatedRecords rs).filter (fun p => p.expected_style == st)).map
              (fun p => p.score.getD 0)).length : ℚ)
          = (((((evaluatedRecords rs).filter (fun p => p.expected_style == st)).map
              (fun p => p.score.getD 0)).sum : ℤ) : ℚ))
  ∧ (overallAverage exampleRecords = some 8
   ∧ averageByStyle exampleRecords = [("realistic", 7), ("cartoon", 10)]) := by
  have hiff : evaluatedRecords rs = [] ↔ ∀ p ∈ rs, p.score = Option.none := by
    unfold evaluatedRecords
    rw [List.filter_eq_nil_iff]
    constructor
    · intro h p hp
      have h2 := h p hp
      cases hs : p.score with
      | none => rfl
      | some v => rw [hs] at h2; simp at h2
    · intro h p hp
      rw [h p hp]
      simp
  have hgrouped : ∀ st, lookupStyle (groupedScores rs) st
      = optAppend Option.none
          (((scorePairs rs).filter (fun p => p.1 == st)).map (fun p => p.2)) := by
    intro st
    unfold groupedScores
    rw [lookupStyle_insertAll]
    rfl
  have havg : ∀ st, lookupStyle (averageByStyle rs) st
      = (lookupStyle (groupedScores rs) st).map styleAvg :=
    fun st => lookupStyle_map_avg _ st
  refine ⟨?_, ?_, ?_, ?_, ?_, ?_⟩
  · constructor
    · intro hnone
      rw [← hiff]
      by_cases h : (evaluatedRecords rs).length = 0
      · exact List.length_eq_zero.mp h
      · unfold overallAverage at hnone
        rw [if_neg h] at hnone
        exact absurd hnone (by simp)
    · intro hall
      have h0 : evaluatedRecords rs = [] := hiff.mpr hall
      simp [overallAverage, h0]
  · intro q hq
    by_cases h : (evaluatedRecords rs).length = 0
    · unfold overallAverage at hq
      rw [if_pos h] at hq
      exact absurd hq (by simp)
    · unfold overallAverage at hq
      rw [if_neg h] at hq
      have hq2 := Option.some.inj hq
      have hlen : (((evaluatedRecords rs).length : ℕ) : ℚ) ≠ 0 := by
        exact_mod_cast h
      rw [← hq2, div_mul_cancel₀ _ hlen]
  · intro st
    rw [havg st, hgrouped st]
    cases hxs : ((scorePairs rs).filter (fun p => p.1 == st)) with
    | nil =>
        have hiff2 := scorePairs_filter_ne_nil_iff rs st
        rw [hxs] at hiff2
        simp only [ne_eq, not_true_eq_false, false_iff] at hiff2
        simp [optAppend]
        intro p hp hs hst
        exact hiff2 ⟨p, hp, hs, hst⟩
    | cons x xs' =>
        have hiff2 := scorePairs_filter_ne_nil_iff rs st
        rw [hxs] at hiff2
        simp [optAppend]
        exact hiff2.mp (by simp)
  · intro st q hq
    rw [havg st, hgrouped st] at hq
    have hscs : ((evaluatedRecords rs).filter (fun p => p.expected_style == st)).map
          (fun p => p.score.getD 0)
        = (((scorePairs rs).filter (fun p => p.1 == st)).map (fun p => p.2)) := by
      unfold scorePairs
      rw [pairs_filter_map]
    rw [hscs]
    cases hxs : ((scorePairs rs).filter (fun p => p.1 == st)) with
    | nil =>
        rw [hxs] at hq
        simp [optAppend] at hq
    | cons x xs' =>
        rw [hxs] at hq
        have h1 : optAppend Option.none ((x :: xs').map (fun p => p.2))
            = some ((x :: xs').map (fun p => p.2)) := by
          simp [optAppend]
        rw [h1] at hq
        have hq2 : styleAvg ((x :: xs').map (fun p => p.2)) = q := by
          exact Option.some.inj hq
        rw [← hq2]
        unfold styleAvg
        rw [div_mul_cancel₀]
        rw [List.length_map, List.length_cons]
        exact_mod_cast Nat.succ_ne_zero xs'.length
  · norm_num [overallAverage, evaluatedRecords, exampleRecords]
  · norm_num [averageByStyle, groupedScores, insertAll, scorePairs, insertScore,
      evaluatedRecords, exampleRecords, styleAvg]
    rw [if_neg (show ¬("realistic" = "cartoon") by decide)]
    norm_num [lookupStyle]

/-- Witness for `evaluation_report_spec`: on the worked example the overall
mean 8 times the three evaluated records equals the score sum 24. -/
theorem evaluation_report_spec_witness :
    (8 : ℚ) * ((evaluatedRecords exampleRecords).length : ℚ)
      = ((((evaluatedRecords exampleRecords).map (fun p => p.score.getD 0)).sum : ℤ) : ℚ) :=
  (evaluation_report_spec exampleRecords).2.1 8
    (by norm_num [overallAverage, evaluatedRecords, exampleRecords])
